import Mathlib

/-!
Verification of the audio inference service (`server.py`).

The service decodes an uploaded audio file, normalizes the waveform
(resample, denoise, pad or trim to a fixed length), extracts a
log-mel-spectrogram feature tensor, and runs an opaque classifier.

Shallow embedding conventions:
* waveforms are `List ℚ` (a sequence of samples), sample rates are `ℕ`;
* external library routines (`librosa.resample`, `nr.reduce_noise`,
  `librosa.feature.melspectrogram`, the Keras model, `tf.image.resize`,
  `np.log10`, the float32 cast) are opaque parameters of the embedded
  functions, constrained only by hypotheses stated in the theorems;
* Python exceptions are `Except String`;
* the HTTP handler is a pure function from the request data and the
  outcomes of the opaque steps to a response plus a trace of the
  side-effecting steps it performed.
-/

namespace Server

/-- The ten bird class identifiers, in the order fixed by `server.py`. -/
def class_names : List String :=
  ["bobfly1", "ducfly", "brratt1", "barant1", "squcuc1",
   "greant1", "bubwre1", "oliwoo1", "fepowl", "butwoo1"]

/-- MAX_FILE_SIZE = 50 * 1024 * 1024 bytes. -/
def MAX_FILE_SIZE : ℕ := 50 * 1024 * 1024

/-- Embeds `pad_or_trim(audio_array, sampling_rate, max_len)`:
`desired_len = int(max_len * sampling_rate)`; a shorter array is
right-padded with zeros (`np.pad(a, (0, desired_len - len(a)))`),
otherwise the array is cut to its first `desired_len` samples
(`a[:desired_len]`). -/
def pad_or_trim (audio_array : List ℚ) (sampling_rate : ℕ) (max_len : ℕ) : List ℚ :=
  let desired_len := max_len * sampling_rate
  if audio_array.length < desired_len then
    audio_array ++ List.replicate (desired_len - audio_array.length) 0
  else
    audio_array.take desired_len

/-- Embeds the waveform-normalization part of `preprocess_audio_data`
(lines 62-68 of `server.py`): resample when the original rate differs
from the target rate, denoise, then `pad_or_trim`.  The external
`librosa.resample` and `nr.reduce_noise` are opaque parameters. -/
def normalize (resample : List ℚ → ℕ → ℕ → List ℚ) (denoise : List ℚ → ℕ → List ℚ)
    (audio_array : List ℚ) (original_sampling_rate target_sampling_rate : ℕ)
    (max_len : ℕ) : List ℚ :=
  let a := if original_sampling_rate ≠ target_sampling_rate then
      resample audio_array original_sampling_rate target_sampling_rate
    else audio_array
  let a := denoise a target_sampling_rate
  pad_or_trim a target_sampling_rate max_len

theorem pad_or_trim_length (a : List ℚ) (sr ml : ℕ) :
    (pad_or_trim a sr ml).length = ml * sr := by
  unfold pad_or_trim
  by_cases h : a.length < ml * sr
  · simp [h]
    omega
  · simp [h]
    omega

/-- C1: the normalization step (resample, denoise, then pad_or_trim with
target rate 16000 and max_len 5) always yields exactly
`16000 * 5 = 80000` samples; an array already of the desired length is
returned unchanged by `pad_or_trim`. -/
theorem C1_normalize_length (resample : List ℚ → ℕ → ℕ → List ℚ)
    (denoise : List ℚ → ℕ → List ℚ) (audio : List ℚ) (orig_sr : ℕ)
    (_h : audio ≠ []) :
    (normalize resample denoise audio orig_sr 16000 5).length = 80000 ∧
      (∀ a : List ℚ, a.length = 80000 → pad_or_trim a 16000 5 = a) := by
  constructor
  · rw [normalize, pad_or_trim_length]
  · intro a ha
    unfold pad_or_trim
    simp [ha]

theorem C1_normalize_length_witness :
    ([(1:ℚ)] ≠ [] ∧
      (normalize (fun a _ _ => a) (fun a _ => a) [(1:ℚ)] 44100 16000 5).length = 80000) :=
  ⟨by decide,
   (C1_normalize_length (fun a _ _ => a) (fun a _ => a) [(1:ℚ)] 44100 (by decide)).1⟩

/-- C3: when `pad_or_trim` pads, the first `len(input)` output samples are
the input and every appended sample is zero; when it truncates, the output
is exactly the first `desired_len` input samples. -/
theorem C3_pad_or_trim_shape (a : List ℚ) (sr ml : ℕ) :
    (a.length < ml * sr →
        (pad_or_trim a sr ml).take a.length = a ∧
        (pad_or_trim a sr ml).drop a.length = List.replicate (ml * sr - a.length) 0) ∧
      (ml * sr ≤ a.length → pad_or_trim a sr ml = a.take (ml * sr)) := by
  constructor
  · intro h
    unfold pad_or_trim
    simp [h, List.take_append, List.drop_append]
  · intro h
    unfold pad_or_trim
    simp [Nat.not_lt.mpr h]

theorem C3_pad_or_trim_shape_witness :
    (((([(3:ℚ)], 2, 2) : List ℚ × ℕ × ℕ).1.length < 2 * 2 →
        (pad_or_trim [(3:ℚ)] 2 2).take 1 = [(3:ℚ)] ∧
        (pad_or_trim [(3:ℚ)] 2 2).drop 1 = List.replicate (2 * 2 - 1) 0) ∧
      (2 * 2 ≤ ([(3:ℚ)] : List ℚ).length → pad_or_trim [(3:ℚ)] 2 2 = [(3:ℚ)].take (2 * 2))) :=
  C3_pad_or_trim_shape [(3:ℚ)] 2 2

theorem pad_or_trim_nil (sr ml : ℕ) :
    pad_or_trim [] sr ml = List.replicate (ml * sr) (0:ℚ) := by
  unfold pad_or_trim
  rcases Nat.eq_zero_or_pos (ml * sr) with h | h
  · simp [h]
  · simp [h]

/-- C4: the normalization pipeline is a total function for every input
length, and on a zero-length waveform (assuming the opaque resampler and
denoiser map an empty signal to an empty signal) it returns 80000 zeros. -/
theorem C4_normalize_zero_length (resample : List ℚ → ℕ → ℕ → List ℚ)
    (denoise : List ℚ → ℕ → List ℚ)
    (hr : ∀ s t, resample [] s t = []) (hd : ∀ s, denoise [] s = [])
    (orig_sr : ℕ) :
    normalize resample denoise [] orig_sr 16000 5 = List.replicate 80000 (0:ℚ) ∧
      ∀ (audio : List ℚ), (normalize resample denoise audio orig_sr 16000 5).length = 80000 := by
  constructor
  · simp only [normalize]
    by_cases h : orig_sr ≠ 16000
    · rw [if_pos h, hr, hd, pad_or_trim_nil]
    · rw [if_neg h, hd, pad_or_trim_nil]
  · intro audio
    rw [normalize, pad_or_trim_length]

theorem C4_normalize_zero_length_witness :
    normalize (fun a _ _ => a) (fun a _ => a) [] 22050 16000 5 =
      List.replicate 80000 (0:ℚ) :=
  (C4_normalize_zero_length (fun a _ _ => a) (fun a _ => a)
    (fun _ _ => rfl) (fun _ => rfl) 22050).1

/-- ASCII lowercasing of one code point, as Python's `str.lower` acts on
the ASCII range (the range relevant to the three extension literals). -/
def lower_code (c : ℕ) : ℕ := if 65 ≤ c ∧ c ≤ 90 then c + 32 else c

/-- The code points of a string. -/
def str_codes (s : String) : List ℕ := s.data.map Char.toNat

/-- Embeds `file.filename.lower().endswith(('.mp3', '.wav', '.m4a'))`:
the lowercased filename must end with one of the three suffixes. -/
def allowed_extension (filename : String) : Bool :=
  List.isSuffixOf (str_codes ".mp3") ((str_codes filename).map lower_code) ||
    List.isSuffixOf (str_codes ".wav") ((str_codes filename).map lower_code) ||
    List.isSuffixOf (str_codes ".m4a") ((str_codes filename).map lower_code)

/-- An exception inside the handler's `try` block: either an
`HTTPException` (the 413 raise) or any other runtime error from the
decode/preprocess/inference steps. -/
inductive Exn : Type
  | http (status_code : ℕ) (detail : String)
  | runtime (msg : String)
deriving DecidableEq, Repr

/-- `str(e)` for the exceptions the handler can catch; starlette's
`HTTPException.__str__` is `f"\x7bstatus_code\x7d: \x7bdetail\x7d"`. -/
def Exn.str : Exn → String
  | .http s d => toString s ++ ": " ++ d
  | .runtime m => m

/-- The side-effecting steps a `/predict` request can perform, in order:
reading the uploaded body, the decode/resample/denoise/spectrogram work
of `process_audio_file`, and the model inference. -/
inductive Event : Type
  | read_body
  | preprocess
  | inference
deriving DecidableEq, Repr

/-- A `/predict` HTTP response: either the 200 `PredictionResponse`
payload or an error status with its detail message. -/
inductive Response : Type
  | success (ebird_code : String) (confidence : ℚ)
  | failure (status_code : ℕ) (detail : String)
deriving DecidableEq, Repr

/-- The HTTP status of a response (a successful body is sent with 200). -/
def Response.status : Response → ℕ
  | .success _ _ => 200
  | .failure s _ => s

/-- Embeds the `try` block of `predict_audio` (lines 174-200): read the
body, raise `HTTPException(413)` when it exceeds `MAX_FILE_SIZE`, run
`process_audio_file` (outcome `proc`), then inference (outcome `infer`).
Returns the block's result together with the trace of performed steps.
`μ` is the mel-spectrogram tensor type. -/
def predict_try {μ : Type} (body_len : ℕ) (proc : Except String μ)
    (infer : μ → Except String (String × ℚ)) :
    Except Exn (String × ℚ) × List Event :=
  if body_len > MAX_FILE_SIZE then
    (.error (.http 413 "File too large. Maximum size is 50MB."), [.read_body])
  else
    match proc with
    | .error e => (.error (.runtime e), [.read_body, .preprocess])
    | .ok mel =>
      match infer mel with
      | .error e => (.error (.runtime e), [.read_body, .preprocess, .inference])
      | .ok lc => (.ok lc, [.read_body, .preprocess, .inference])

/-- Embeds the `/predict` handler `predict_audio`: extension check,
model-loaded check, then the `try` block whose every exception — the
`HTTPException(413)` included — is caught by `except Exception` and
re-raised as a 500 with `str(e)` interpolated. -/
def predict_audio {μ : Type} (model_loaded : Bool) (filename : String)
    (body_len : ℕ) (proc : Except String μ)
    (infer : μ → Except String (String × ℚ)) : Response × List Event :=
  if allowed_extension filename = false then
    (.failure 400 "Only audio files (.mp3, .wav, .m4a) are allowed", [])
  else if model_loaded = false then
    (.failure 500 "Model not loaded. Please check server configuration.", [])
  else
    match predict_try body_len proc infer with
    | (.ok lc, ev) => (.success lc.1 lc.2, ev)
    | (.error e, ev) =>
      (.failure 500 ("Error processing audio file: " ++ e.str), ev)

/-- C2 counterexample: a 60 MiB upload with a valid extension and a
loaded model is answered with status 500 (the `except Exception` block
catches the `HTTPException(413)` raised inside `try` and re-raises it as
a 500), not 413 as the claim states; no preprocessing is attempted. -/
theorem C2_oversized_gets_500 :
    ∀ (proc : Except String (List (List (List ℚ))))
      (infer : List (List (List ℚ)) → Except String (String × ℚ)),
      (predict_audio true "song.mp3" (60 * 1024 * 1024) proc infer).1 =
          .failure 500
            "Error processing audio file: 413: File too large. Maximum size is 50MB." ∧
        (predict_audio true "song.mp3" (60 * 1024 * 1024) proc infer).1.status ≠ 413 ∧
        (predict_audio true "song.mp3" (60 * 1024 * 1024) proc infer).2 = [.read_body] := by
  intro proc infer
  have h1 : (predict_audio true "song.mp3" (60 * 1024 * 1024) proc infer).1 =
      .failure 500
        "Error processing audio file: 413: File too large. Maximum size is 50MB." := rfl
  refine ⟨h1, ?_, rfl⟩
  rw [h1]
  decide

/-- C5: with an accepted filename and no loaded model, the handler
answers 500 "Model not loaded. Please check server configuration." and
performs no step at all: the body is not read and nothing is decoded,
normalized, feature-extracted or inferred. -/
theorem C5_model_not_loaded {μ : Type} (filename : String) (body_len : ℕ)
    (proc : Except String μ) (infer : μ → Except String (String × ℚ))
    (hext : allowed_extension filename = true) :
    predict_audio false filename body_len proc infer =
      (.failure 500 "Model not loaded. Please check server configuration.", []) := by
  simp [predict_audio, hext]

theorem C5_model_not_loaded_witness :
    predict_audio false "a.WAV" 10
        (Except.error "unused" : Except String (List (List (List ℚ))))
        (fun _ => Except.error "unused") =
      (.failure 500 "Model not loaded. Please check server configuration.", []) :=
  C5_model_not_loaded "a.WAV" 10 _ _ (by decide)

/-- C6: the handler answers 400 exactly when the filename does not end,
case-insensitively, in .mp3, .wav or .m4a; in that case the trace is
empty, so the rejection happens before the body is read and before any
inference. -/
theorem C6_bad_extension_iff_400 {μ : Type} (model_loaded : Bool)
    (filename : String) (body_len : ℕ) (proc : Except String μ)
    (infer : μ → Except String (String × ℚ)) :
    ((predict_audio model_loaded filename body_len proc infer).1.status = 400 ↔
        allowed_extension filename = false) ∧
      (allowed_extension filename = false →
        (predict_audio model_loaded filename body_len proc infer).2 = []) := by
  by_cases hext : allowed_extension filename = false
  · simp [predict_audio, hext, Response.status]
  · rw [predict_audio, if_neg hext]
    refine ⟨⟨fun h400 => ?_, fun h => absurd h hext⟩, fun h => absurd h hext⟩
    by_cases hm : model_loaded = false
    · rw [if_pos hm] at h400
      exact absurd h400 (by decide)
    · rw [if_neg hm] at h400
      rcases hp : predict_try body_len proc infer with ⟨r, ev⟩
      rcases r with lc | e <;>
        · rw [hp] at h400
          exact absurd h400 (by simp [Response.status])

theorem C6_bad_extension_iff_400_witness :
    (((predict_audio true "notes.txt" 10
          (Except.error "unused" : Except String (List (List (List ℚ))))
          (fun _ => Except.error "unused")).1.status = 400 ↔
        allowed_extension "notes.txt" = false) ∧
      (allowed_extension "notes.txt" = false →
        (predict_audio true "notes.txt" 10
          (Except.error "unused" : Except String (List (List (List ℚ))))
          (fun _ => Except.error "unused")).2 = [])) :=
  C6_bad_extension_iff_400 true "notes.txt" 10 _ _

/-- Helper of `np_argmax`: scans the elements whose first index is `i`,
keeping the index `best` and value `bestv` of the best element so far;
a strict comparison keeps the first occurrence of the maximum, as
`np.argmax` does. -/
def argmax_aux : ℕ → ℕ → ℚ → List ℚ → ℕ
  | _, best, _, [] => best
  | i, best, bestv, x :: xs =>
    if bestv < x then argmax_aux (i + 1) i x xs
    else argmax_aux (i + 1) best bestv xs

/-- Embeds `np.argmax`: the first index at which the maximum occurs
(`np.argmax` of an empty array raises; the value at `[]` is irrelevant). -/
def np_argmax : List ℚ → ℕ
  | [] => 0
  | x :: xs => argmax_aux 1 0 x xs

/-- Embeds `np.max`: the largest element (`np.max` of an empty array
raises; the value at `[]` is irrelevant). -/
def np_max : List ℚ → ℚ
  | [] => 0
  | x :: xs => xs.foldl max x

/-- Embeds `inference_from_melspec(mel_spec_db, model, class_names)`:
resize when the model's declared input shape differs from the tensor's
(`shape_mismatch` embeds `model.input_shape[1:3] != mel_spec_db.shape[1:3]`,
`resize` embeds `tf.image.resize`), run the opaque model on the resized
tensor, and return `(class_names[argmax(pred)], max(pred))`. -/
def inference_from_melspec {μ : Type} (shape_mismatch : Bool) (resize : μ → μ)
    (model_predict : μ → List ℚ) (mel_spec_db : μ) (cls : List String) :
    String × ℚ :=
  let mel_spec_resized := if shape_mismatch then resize mel_spec_db else mel_spec_db
  let pred := model_predict mel_spec_resized
  (cls.getD (np_argmax pred) "", np_max pred)

theorem argmax_aux_cases (xs : List ℚ) :
    ∀ (i best : ℕ) (bestv : ℚ),
      argmax_aux i best bestv xs = best ∨
        (i ≤ argmax_aux i best bestv xs ∧
          argmax_aux i best bestv xs < i + xs.length) := by
  induction xs with
  | nil => intro i best bestv; exact Or.inl rfl
  | cons x xs ih =>
    intro i best bestv
    rw [argmax_aux]
    by_cases h : bestv < x
    · rw [if_pos h]
      rcases ih (i + 1) i x with h1 | ⟨h1, h2⟩
      · right
        rw [h1]
        simp
      · right
        constructor
        · omega
        · simp only [List.length_cons]
          omega
    · rw [if_neg h]
      rcases ih (i + 1) best bestv with h1 | ⟨h1, h2⟩
      · exact Or.inl h1
      · right
        constructor
        · omega
        · simp only [List.length_cons]
          omega

theorem np_argmax_lt_length (l : List ℚ) (h : l ≠ []) :
    np_argmax l < l.length := by
  match l with
  | x :: xs =>
    rw [np_argmax]
    rcases argmax_aux_cases xs 1 0 x with h1 | ⟨h1, h2⟩
    · rw [h1]; simp
    · simp only [List.length_cons]
      omega

theorem le_foldl_max (xs : List ℚ) : ∀ x : ℚ, x ≤ xs.foldl max x := by
  induction xs with
  | nil => intro x; exact le_refl x
  | cons y ys ih =>
    intro x
    rw [List.foldl_cons]
    exact le_trans (le_max_left x y) (ih (max x y))

theorem foldl_max_mem (x : ℚ) (xs : List ℚ) : xs.foldl max x ∈ x :: xs := by
  induction xs generalizing x with
  | nil => simp
  | cons y ys ih =>
    rw [List.foldl_cons]
    have h := ih (max x y)
    rw [List.mem_cons] at h
    rcases h with h | h
    · rcases max_choice x y with hm | hm <;> rw [hm] at h ⊢ <;> simp [h]
    · simp [h]

theorem foldl_max_le (xs : List ℚ) :
    ∀ (x b : ℚ), x ≤ b → (∀ y ∈ xs, y ≤ b) → xs.foldl max x ≤ b := by
  induction xs with
  | nil => intro x b hx _; exact hx
  | cons y ys ih =>
    intro x b hx hys
    rw [List.foldl_cons]
    refine ih (max x y) b (max_le hx (hys y (by simp))) ?_
    intro z hz
    exact hys z (by simp [hz])

/-- C7: when every model output has exactly 10 entries, each in [0,1],
`inference_from_melspec` returns the class of the fixed 10-entry list at
the index of the output's maximum — hence a member of that list — and
a confidence equal to that maximum, hence in [0,1]. -/
theorem C7_inference_label_confidence {μ : Type} (shape_mismatch : Bool)
    (resize : μ → μ) (model_predict : μ → List ℚ) (mel : μ)
    (hm : ∀ t, (model_predict t).length = 10 ∧
      ∀ p ∈ model_predict t, 0 ≤ p ∧ p ≤ 1) :
    (inference_from_melspec shape_mismatch resize model_predict mel
        class_names).1 ∈ class_names ∧
      class_names.get?
          (np_argmax (model_predict
            (if shape_mismatch then resize mel else mel))) =
        some (inference_from_melspec shape_mismatch resize model_predict mel
          class_names).1 ∧
      (inference_from_melspec shape_mismatch resize model_predict mel
          class_names).2 =
        np_max (model_predict (if shape_mismatch then resize mel else mel)) ∧
      0 ≤ (inference_from_melspec shape_mismatch resize model_predict mel
          class_names).2 ∧
      (inference_from_melspec shape_mismatch resize model_predict mel
          class_names).2 ≤ 1 := by
  set t := if shape_mismatch then resize mel else mel with ht
  obtain ⟨hlen, hrange⟩ := hm t
  have hne : model_predict t ≠ [] := by
    intro hnil
    rw [hnil] at hlen
    simp at hlen
  have hidx : np_argmax (model_predict t) < class_names.length := by
    have := np_argmax_lt_length (model_predict t) hne
    rw [hlen] at this
    simpa [class_names] using this
  have hget : class_names.get? (np_argmax (model_predict t)) =
      some (class_names.get ⟨np_argmax (model_predict t), hidx⟩) :=
    List.get?_eq_get hidx
  have hres : inference_from_melspec shape_mismatch resize model_predict mel
      class_names =
      (class_names.getD (np_argmax (model_predict t)) "",
        np_max (model_predict t)) := by
    rw [inference_from_melspec]
  have hgetD : class_names.getD (np_argmax (model_predict t)) "" =
      class_names.get ⟨np_argmax (model_predict t), hidx⟩ := by
    rw [List.getD_eq_get?, hget]
    rfl
  have hmaxmem : np_max (model_predict t) ∈ model_predict t := by
    match hp : model_predict t with
    | [] => exact absurd hp hne
    | x :: xs =>
      rw [np_max]
      exact foldl_max_mem x xs
  refine ⟨?_, ?_, ?_, ?_, ?_⟩
  · rw [hres]
    simp only [hgetD]
    exact List.get_mem class_names _ _
  · rw [hres, hgetD]
    exact hget
  · rw [hres]
  · rw [hres]
    exact (hrange _ hmaxmem).1
  · rw [hres]
    exact (hrange _ hmaxmem).2

theorem C7_inference_label_confidence_witness :
    ((inference_from_melspec false id
        (fun _ : List (List (List ℚ)) => [0, 1, 0, 0, 0, 0, 0, 0, 0, 0])
        [[[0]]] class_names).1 ∈ class_names ∧
      class_names.get?
          (np_argmax ((fun _ : List (List (List ℚ)) =>
            ([0, 1, 0, 0, 0, 0, 0, 0, 0, 0] : List ℚ))
            (if false then id [[[0]]] else [[[0]]]))) =
        some (inference_from_melspec false id
          (fun _ : List (List (List ℚ)) => [0, 1, 0, 0, 0, 0, 0, 0, 0, 0])
          [[[0]]] class_names).1 ∧
      (inference_from_melspec false id
          (fun _ : List (List (List ℚ)) => [0, 1, 0, 0, 0, 0, 0, 0, 0, 0])
          [[[0]]] class_names).2 =
        np_max ((fun _ : List (List (List ℚ)) =>
          ([0, 1, 0, 0, 0, 0, 0, 0, 0, 0] : List ℚ))
          (if false then id [[[0]]] else [[[0]]])) ∧
      0 ≤ (inference_from_melspec false id
          (fun _ : List (List (List ℚ)) => [0, 1, 0, 0, 0, 0, 0, 0, 0, 0])
          [[[0]]] class_names).2 ∧
      (inference_from_melspec false id
          (fun _ : List (List (List ℚ)) => [0, 1, 0, 0, 0, 0, 0, 0, 0, 0])
          [[[0]]] class_names).2 ≤ 1) :=
  C7_inference_label_confidence false id
    (fun _ => [0, 1, 0, 0, 0, 0, 0, 0, 0, 0]) [[[0]]]
    (fun _ => (by decide :
      ([0, 1, 0, 0, 0, 0, 0, 0, 0, 0] : List ℚ).length = 10 ∧
        ∀ p ∈ ([0, 1, 0, 0, 0, 0, 0, 0, 0, 0] : List ℚ), 0 ≤ p ∧ p ≤ 1))

/-- All entries of a matrix (a mel-spectrogram: mel bins × time frames),
row-major. -/
def matEntries (m : List (List ℚ)) : List ℚ := m.flatten

/-- Entrywise application of `f` on a matrix. -/
def matMap (f : ℚ → ℚ) (m : List (List ℚ)) : List (List ℚ) :=
  m.map (List.map f)

/-- `np.max` over a whole matrix. -/
def np_max_mat (m : List (List ℚ)) : ℚ := np_max (matEntries m)

/-- The `amin = 1e-10` floor of `librosa.power_to_db`. -/
def amin : ℚ := 1 / 10000000000

/-- The `top_db = 80.0` default of `librosa.power_to_db`. -/
def top_db : ℚ := 80

/-- The pointwise decibel formula of `librosa.power_to_db`:
`10 * log10(max(amin, x)) - 10 * log10(max(amin, ref_value))`, with the
base-10 logarithm an opaque parameter. -/
def db_entry (log10 : ℚ → ℚ) (ref_value : ℚ) (x : ℚ) : ℚ :=
  10 * log10 (max amin x) - 10 * log10 (max amin ref_value)

/-- Embeds `librosa.power_to_db(S, ref=ref_value)` with its documented
semantics: the pointwise decibel map followed by the `top_db` clamp
`maximum(log_spec, log_spec.max() - top_db)`. -/
def power_to_db (log10 : ℚ → ℚ) (S : List (List ℚ)) (ref_value : ℚ) :
    List (List ℚ) :=
  matMap
    (fun x => max x (np_max_mat (matMap (db_entry log10 ref_value) S) - top_db))
    (matMap (db_entry log10 ref_value) S)

/-- Embeds `to_melspectrogram(audio_array, ...)`: the opaque
`librosa.feature.melspectrogram` output is scaled by `power_to_db` with
`ref=np.max`, cast to single precision (`cast32`, an opaque rounding),
and given a trailing singleton channel axis (`[..., np.newaxis]`). -/
def to_melspectrogram (melspec : List ℚ → List (List ℚ))
    (log10 cast32 : ℚ → ℚ) (audio_array : List ℚ) : List (List (List ℚ)) :=
  (matMap cast32
      (power_to_db log10 (melspec audio_array)
        (np_max_mat (melspec audio_array)))).map
    (fun row => row.map (fun x => [x]))

/-- All entries of a 3-dimensional tensor. -/
def tensorEntries (t : List (List (List ℚ))) : List ℚ :=
  matEntries (t.map matEntries)

theorem np_max_mem (l : List ℚ) (h : l ≠ []) : np_max l ∈ l := by
  match l with
  | x :: xs =>
    rw [np_max]
    exact foldl_max_mem x xs

theorem le_foldl_max_of_mem (xs : List ℚ) :
    ∀ (x y : ℚ), y ∈ x :: xs → y ≤ xs.foldl max x := by
  induction xs with
  | nil =>
    intro x y hy
    rw [List.mem_singleton] at hy
    rw [hy]
    exact le_refl x
  | cons z zs ih =>
    intro x y hy
    rw [List.foldl_cons]
    have hub : max x z ≤ zs.foldl max (max x z) :=
      le_foldl_max zs (max x z)
    rw [List.mem_cons] at hy
    rcases hy with hy | hy
    · exact le_trans (hy ▸ le_max_left x z) hub
    · rw [List.mem_cons] at hy
      rcases hy with hy | hy
      · exact le_trans (hy ▸ le_max_right x z) hub
      · exact ih (max x z) y (List.mem_cons_of_mem _ hy)

theorem le_np_max_of_mem (l : List ℚ) (y : ℚ) (hy : y ∈ l) : y ≤ np_max l := by
  match l with
  | x :: xs =>
    rw [np_max]
    exact le_foldl_max_of_mem xs x y hy

theorem np_max_le (l : List ℚ) (b : ℚ) (h : l ≠ [])
    (hb : ∀ y ∈ l, y ≤ b) : np_max l ≤ b := by
  match l with
  | x :: xs =>
    rw [np_max]
    exact foldl_max_le xs x b (hb x (by simp))
      (fun y hy => hb y (List.mem_cons_of_mem _ hy))

theorem matEntries_matMap (f : ℚ → ℚ) (m : List (List ℚ)) :
    matEntries (matMap f m) = (matEntries m).map f := by
  rw [matEntries, matMap, matEntries, List.map_flatten]

theorem tensorEntries_channel (m : List (List ℚ)) :
    tensorEntries (m.map (fun row => row.map (fun x => [x]))) = matEntries m := by
  rw [tensorEntries]
  have h : (m.map (fun row => row.map (fun x => [x]))).map matEntries = m := by
    rw [List.map_map]
    have hrow : ∀ r : List ℚ, matEntries (r.map (fun x => [x])) = r := by
      intro r
      induction r with
      | nil => rfl
      | cons a as ih =>
        rw [List.map_cons, matEntries, List.flatten_cons]
        rw [matEntries] at ih
        rw [ih]
        rfl
    calc (m.map (matEntries ∘ fun row => row.map (fun x => [x])))
        = m.map (fun row => matEntries (row.map (fun x => [x]))) := rfl
      _ = m.map id := by
          apply List.map_congr_left
          intro r _
          rw [hrow r]
          rfl
      _ = m := List.map_id m
  rw [h]

theorem power_to_db_entries (log10 : ℚ → ℚ) (hlog : Monotone log10)
    (S : List (List ℚ)) (hne : matEntries S ≠ []) :
    (0:ℚ) ∈ matEntries (power_to_db log10 S (np_max_mat S)) ∧
      ∀ v ∈ matEntries (power_to_db log10 S (np_max_mat S)), -80 ≤ v ∧ v ≤ 0 := by
  have hL : matEntries (matMap (db_entry log10 (np_max_mat S)) S) =
      (matEntries S).map (db_entry log10 (np_max_mat S)) := matEntries_matMap _ S
  have hLne : matEntries (matMap (db_entry log10 (np_max_mat S)) S) ≠ [] := by
    rw [hL]
    intro h
    exact hne (List.map_eq_nil_iff.mp h)
  have hMmem : np_max_mat S ∈ matEntries S := by
    rw [np_max_mat]
    exact np_max_mem _ hne
  have hgM : db_entry log10 (np_max_mat S) (np_max_mat S) = 0 := by
    rw [db_entry]
    ring
  have h0mem : (0:ℚ) ∈ matEntries (matMap (db_entry log10 (np_max_mat S)) S) := by
    rw [hL]
    exact hgM ▸ List.mem_map_of_mem _ hMmem
  have hgle : ∀ v ∈ matEntries (matMap (db_entry log10 (np_max_mat S)) S), v ≤ 0 := by
    rw [hL]
    intro v hv
    rcases List.mem_map.mp hv with ⟨x, hx, rfl⟩
    have hxM : x ≤ np_max_mat S := by
      rw [np_max_mat]
      exact le_np_max_of_mem _ x hx
    have hlx : log10 (max amin x) ≤ log10 (max amin (np_max_mat S)) :=
      hlog (max_le_max (le_refl amin) hxM)
    rw [db_entry]
    linarith
  have hmaxL : np_max_mat (matMap (db_entry log10 (np_max_mat S)) S) = 0 := by
    rw [np_max_mat]
    exact le_antisymm (np_max_le _ 0 hLne hgle) (le_np_max_of_mem _ 0 h0mem)
  have hD : matEntries (power_to_db log10 S (np_max_mat S)) =
      (matEntries (matMap (db_entry log10 (np_max_mat S)) S)).map
        (fun x => max x (-80)) := by
    rw [power_to_db, matEntries_matMap]
    simp only [hmaxL, top_db, zero_sub]
  constructor
  · rw [hD]
    have hmax0 : max (0:ℚ) (-80) = 0 := by norm_num
    exact hmax0 ▸ List.mem_map_of_mem _ h0mem
  · rw [hD]
    intro v hv
    rcases List.mem_map.mp hv with ⟨x, hx, rfl⟩
    exact ⟨le_max_right x (-80), max_le (hgle x hx) (by norm_num)⟩

/-- C8: referenced to its own maximum, the decibel-scaled feature tensor
has maximum exactly 0 and every entry in [-80, 0] (finite), and the
trailing channel dimension is a singleton; the opaque base-10 logarithm
and the single-precision rounding are monotone, and the rounding fixes
the exactly representable values 0 and -80. -/
theorem C8_feature_tensor_max_zero (melspec : List ℚ → List (List ℚ))
    (log10 cast32 : ℚ → ℚ) (audio : List ℚ)
    (hlog : Monotone log10) (hcast : Monotone cast32)
    (hc0 : cast32 0 = 0) (hc80 : cast32 (-80) = -80)
    (hne : matEntries (melspec audio) ≠ []) :
    np_max (tensorEntries (to_melspectrogram melspec log10 cast32 audio)) = 0 ∧
      (∀ v ∈ tensorEntries (to_melspectrogram melspec log10 cast32 audio),
        -80 ≤ v ∧ v ≤ 0) ∧
      ∀ row ∈ to_melspectrogram melspec log10 cast32 audio, ∀ cell ∈ row,
        cell.length = 1 := by
  obtain ⟨h0, hbound⟩ := power_to_db_entries log10 hlog (melspec audio) hne
  have hT : tensorEntries (to_melspectrogram melspec log10 cast32 audio) =
      (matEntries (power_to_db log10 (melspec audio)
        (np_max_mat (melspec audio)))).map cast32 := by
    rw [to_melspectrogram, tensorEntries_channel, matEntries_matMap]
  have hmem0 : (0:ℚ) ∈
      tensorEntries (to_melspectrogram melspec log10 cast32 audio) := by
    rw [hT]
    exact hc0 ▸ List.mem_map_of_mem _ h0
  have hub : ∀ v ∈ tensorEntries (to_melspectrogram melspec log10 cast32 audio),
      -80 ≤ v ∧ v ≤ 0 := by
    rw [hT]
    intro v hv
    rcases List.mem_map.mp hv with ⟨x, hx, rfl⟩
    obtain ⟨hxl, hxu⟩ := hbound x hx
    constructor
    · rw [← hc80]
      exact hcast hxl
    · rw [← hc0]
      exact hcast hxu
  have hTne : tensorEntries (to_melspectrogram melspec log10 cast32 audio) ≠ [] := by
    intro h
    rw [h] at hmem0
    exact absurd hmem0 (List.not_mem_nil 0)
  refine ⟨?_, hub, ?_⟩
  · exact le_antisymm (np_max_le _ 0 hTne (fun y hy => (hub y hy).2))
      (le_np_max_of_mem _ 0 hmem0)
  · rw [to_melspectrogram]
    intro row hrow cell hcell
    rcases List.mem_map.mp hrow with ⟨r, _, rfl⟩
    rcases List.mem_map.mp hcell with ⟨x, _, rfl⟩
    rfl

theorem C8_feature_tensor_max_zero_witness :
    (np_max (tensorEntries (to_melspectrogram
        (fun _ => [[4, 1]]) id id [0])) = 0 ∧
      (∀ v ∈ tensorEntries (to_melspectrogram (fun _ => [[4, 1]]) id id [0]),
        -80 ≤ v ∧ v ≤ 0) ∧
      ∀ row ∈ to_melspectrogram (fun _ => [[4, 1]]) id id [0], ∀ cell ∈ row,
        cell.length = 1) :=
  C8_feature_tensor_max_zero (fun _ => [[4, 1]]) id id [0]
    monotone_id monotone_id rfl rfl (by decide)

/-- The file-system state visible to one request's decode step: whether
its private temporary file currently exists on disk. -/
structure FS where
  temp_exists : Bool
deriving DecidableEq, Repr

/-- Python `try/finally`: the `finally` transformation is applied to the
state left by the body on the success path and on the exception path
alike. -/
def tryFinally {α : Type} (body : FS → Except String α × FS)
    (finallyStep : FS → FS) (s : FS) : Except String α × FS :=
  ((body s).1, finallyStep (body s).2)

/-- Embeds `_process_sync` of `process_audio_file`: the
`NamedTemporaryFile(delete=False, suffix='.mp3')` block writes the upload
and leaves the file behind (initial state `temp_exists := true`); the
`try` body runs `librosa.load` (opaque outcome `load`) and
`preprocess_audio_data` (opaque outcome `prep`), either of which may
raise; the `finally` clause unlinks the temporary file when it exists. -/
def process_sync {μ : Type} (load : Except String (List ℚ × ℕ))
    (prep : List ℚ × ℕ → Except String μ) : Except String μ × FS :=
  tryFinally
    (fun s => (load.bind prep, s))
    (fun s => if s.temp_exists then { temp_exists := false } else s)
    { temp_exists := true }

/-- The fixed `suffix='.mp3'` of the temporary file. -/
def tempfile_suffix : String := ".mp3"

/-- Embeds `process_audio_file(file_content, filename)`: it submits
`_process_sync` to the worker pool; the decoder reads back exactly the
bytes written to the temporary file, so `load` depends on
`file_content` only, and the temporary file's name carries the fixed
suffix. -/
def process_audio_file {μ : Type} (load : List ℕ → Except String (List ℚ × ℕ))
    (prep : List ℚ × ℕ → Except String μ) (file_content : List ℕ)
    (filename : String) : (Except String μ × FS) × String :=
  (process_sync (load file_content) prep, tempfile_suffix)

/-- C9: whatever the outcomes of the decode (`load`) and of the
downstream preprocessing (`prep`) — success or exception — the
temporary file no longer exists when `_process_sync` exits. -/
theorem C9_temp_file_removed {μ : Type} (load : Except String (List ℚ × ℕ))
    (prep : List ℚ × ℕ → Except String μ) :
    (process_sync load prep).2.temp_exists = false := rfl

/-- C10: the temporary file's name always ends in the fixed suffix
`.mp3`, and the `filename` argument of `process_audio_file` has no
effect on its result. -/
theorem C10_tempfile_suffix_fixed {μ : Type}
    (load : List ℕ → Except String (List ℚ × ℕ))
    (prep : List ℚ × ℕ → Except String μ) (content : List ℕ)
    (f1 f2 : String) :
    (process_audio_file load prep content f1).2 = ".mp3" ∧
      process_audio_file load prep content f1 =
        process_audio_file load prep content f2 :=
  ⟨rfl, rfl⟩

end Server
